import Mathlib

/-!
Verification of the data-cleaning pipeline and upload flow of `src/app.py`.

The program is a Flask route `upload_file` that parses an uploaded CSV/JSON
file into a pandas DataFrame and applies four cleaning stages (lines 61-80):

1. `df.columns = df.columns.str.lower().str.replace(' ', '_')`
2. `if 'country' in df.columns: df['country'] = df['country'].str.strip().str.title()`
3. `df = df.dropna()` ; `df = df.drop_duplicates()`
4. `if {'country','date','cases','deaths','recovered'}.issubset(df.columns):
      df = df.groupby(['country','date']).agg({'cases':'sum','deaths':'sum','recovered':'sum'}).reset_index()`

The embedding models a DataFrame as a list of column names plus row-major
scalar data.  Scalars are strings, numbers (modelled as integers) or null
(pandas `NaN`).  Library behaviours of pandas that the code relies on are
modelled faithfully where they are observable for the claims:

* `.str` accessor methods (`strip`, `title`, `lower`, `replace`) operate
  element-wise on string values; a non-string, non-null element is turned
  into `NaN`; and the accessor itself raises `AttributeError: Can only use
  .str accessor with string values!` when the column has at least one
  non-null value but no string value (pandas
  `StringMethods._validate`: allowed inferred dtypes are string/empty/mixed).
* `dropna()` removes every row containing a null; `drop_duplicates()` keeps
  the first occurrence of each distinct row, preserving order.
* `groupby(..., sort=True)` (the default) emits groups in sorted key
  order; rows inside a group keep their original order.  Each key level is
  ordered by value within a type; a level that mixes numbers and strings
  does not raise — pandas `safe_sort` falls back to `_sort_mixed`, which
  places numbers before strings (before nulls).  The aggregation `'sum'`
  adds numbers, concatenates strings, and raises `TypeError` on a
  mixed-type fold (`int + str`).
* `.agg({...}).reset_index()` produces exactly the two key columns followed
  by the three aggregated columns; all other columns are dropped.

Python string semantics used: `str.lower` char-wise (ASCII model),
`str.replace(' ', '_')` char-wise, `str.strip()` removes leading/trailing
whitespace, `str.title()` starts a new word at every alphabetic character
that follows a non-alphabetic character (so `-`, digits, apostrophes break
words, not only whitespace).
-/

set_option maxHeartbeats 1000000

namespace App

/-- A scalar cell value: a string, a number (modelled as an integer), or
null (pandas `NaN`). -/
inductive Scalar where
  | str (s : String)
  | num (n : Int)
  | null
deriving DecidableEq, Repr

/-- A tabular dataset (pandas DataFrame): named columns, row-major data. -/
structure DF where
  cols : List String
  rows : List (List Scalar)
deriving DecidableEq, Repr

/-- Well-formedness from the spec's data model (§3): column names are
unique and every row has one value per column. -/
def WF (df : DF) : Prop :=
  df.cols.Nodup ∧ ∀ r ∈ df.rows, r.length = df.cols.length

instance : DecidablePred WF := fun df => by unfold WF; infer_instance

/-! ### Python string primitives -/

/-- One character of Stage 1 normalization (`app.py` line 61): lowercase,
then replace a space character by an underscore.  Both `str.lower` and the
single-character `str.replace(' ', '_')` act char-wise, so their
composition does. -/
def normChar (c : Char) : Char :=
  if c.toLower = ' ' then '_' else c.toLower

/-- Stage 1 normalization of one column name:
`name.lower().replace(' ', '_')`. -/
def normName (s : String) : String := ⟨s.data.map normChar⟩

/-- Python `str.isspace` characters (ASCII range), the characters removed
by `str.strip()`. -/
def pyIsSpace (c : Char) : Bool :=
  c = ' ' || c = '\t' || c = '\n' || c = '\r' || c = '\x0b' || c = '\x0c'

/-- Python `str.strip()` on a character list: remove leading and trailing
whitespace. -/
def pyStripL (l : List Char) : List Char :=
  ((l.dropWhile pyIsSpace).reverse.dropWhile pyIsSpace).reverse

/-- Python `str.strip()`: remove leading and trailing whitespace. -/
def pyStrip (s : String) : String := ⟨pyStripL s.data⟩

/-- Helper for `pyTitle`; the flag records whether the previous character
was alphabetic (cased). -/
def pyTitleAux : Bool → List Char → List Char
  | _, [] => []
  | prev, c :: cs =>
    (if c.isAlpha then (if prev then c.toLower else c.toUpper) else c) ::
      pyTitleAux c.isAlpha cs

/-- Python `str.title()` (ASCII model): an alphabetic character is
uppercased when the previous character is not alphabetic and lowercased
otherwise; non-alphabetic characters pass through and break words. -/
def pyTitle (s : String) : String := ⟨pyTitleAux false s.data⟩

/-- Python `str.endswith`: suffix test on the character sequence. -/
def pyEndsWith (s t : String) : Bool := t.data.isSuffixOf s.data

/-! ### Stage 1 — column name normalization (`app.py` line 61) -/

def stage1 (df : DF) : DF := ⟨df.cols.map normName, df.rows⟩

/-! ### Stage 2 — country value cleaning (`app.py` lines 64-65) -/

/-- Is the scalar a string? -/
def isStr : Scalar → Bool
  | .str _ => true
  | _ => false

/-- Is the scalar a number? -/
def isNum : Scalar → Bool
  | .num _ => true
  | _ => false

/-- Is the scalar null? -/
def isNull : Scalar → Bool
  | .null => true
  | _ => false

/-- Element-wise effect of `.str.strip().str.title()` on one value of an
object column: strings are stripped and title-cased, null stays null, and
a non-string value becomes `NaN` (pandas `.str` methods map non-string
elements to `NaN`). -/
def applyStr (v : Scalar) : Scalar :=
  match v with
  | .str s => .str (pyTitle (pyStrip s))
  | .num _ => .null
  | .null => .null

/-- Validity of the pandas `.str` accessor on a column: it raises unless
the column contains a string value or consists solely of nulls
(inferred dtype string/mixed/empty; a purely numeric non-empty column
raises `AttributeError`). -/
def strAccessorOk (l : List Scalar) : Bool := l.any isStr || l.all isNull

/-- Position of the first occurrence of `x` in `l` (length of `l` when
absent). -/
def firstIdx {α : Type} [DecidableEq α] (x : α) : List α → Nat
  | [] => 0
  | a :: l => if a = x then 0 else firstIdx x l + 1

/-- `'country' in df.columns` (`app.py` line 64). -/
def hasCountry (df : DF) : Bool := decide ("country" ∈ df.cols)

/-- Index of a column name in the dataset (position of its first
occurrence; under well-formedness names are unique). -/
def colIdx (df : DF) (c : String) : Nat := firstIdx c df.cols

/-- Value of row `r` in column position `i` (null-padded for ragged rows;
well-formed datasets never hit the default). -/
def entry (r : List Scalar) (i : Nat) : Scalar := r.getD i .null

/-- The values of column `c`, top to bottom. -/
def colVals (df : DF) (c : String) : List Scalar :=
  df.rows.map (fun r => entry r (colIdx df c))

/-- The dataset produced by Stage 2 when the `.str` accessor is legal:
replace each value of the `country` column (if present) by its cleaned
form. -/
def stage2app (df : DF) : DF :=
  if hasCountry df then
    ⟨df.cols,
      df.rows.map (fun r =>
        r.set (colIdx df "country") (applyStr (entry r (colIdx df "country"))))⟩
  else df

/-- Does Stage 2 run without raising?  It raises exactly when a `country`
column exists whose values trip the `.str` accessor. -/
def stage2ok (df : DF) : Bool := !hasCountry df || strAccessorOk (colVals df "country")

/-- Stage 2 (`app.py` lines 64-65), including the pandas failure mode. -/
def stage2 (df : DF) : Except String DF :=
  if stage2ok df then .ok (stage2app df)
  else .error "AttributeError: Can only use .str accessor with string values!"

/-! ### Stage 3 — dropna and drop_duplicates (`app.py` lines 68, 71) -/

/-- Does the row contain no null (rows kept by `dropna()`)? -/
def rowNoNull (r : List Scalar) : Bool := decide (Scalar.null ∉ r)

/-- `drop_duplicates(keep='first')`: keep each value's first occurrence,
dropping values already seen; order is otherwise preserved. -/
def keepFirsts {α : Type} [DecidableEq α] (seen : List α) : List α → List α
  | [] => []
  | a :: l => if a ∈ seen then keepFirsts seen l else a :: keepFirsts (a :: seen) l

/-- Stage 3 (`app.py` lines 68 and 71): `df.dropna()` then
`df.drop_duplicates()`. -/
def stage3 (df : DF) : DF :=
  ⟨df.cols, keepFirsts [] (df.rows.filter rowNoNull)⟩

/-! ### Stage 4 — conditional aggregation (`app.py` lines 74-80) -/

/-- The five required column names, in the output order produced by
`reset_index()` after `groupby(['country','date']).agg(...)`. -/
def requiredCols : List String := ["country", "date", "cases", "deaths", "recovered"]

/-- `{'country','date','cases','deaths','recovered'}.issubset(df.columns)`
(`app.py` line 74). -/
def hasRequired (df : DF) : Bool := requiredCols.all (fun c => decide (c ∈ df.cols))

/-- The grouping key of a row: its (country, date) pair. -/
def keyOf (df : DF) (r : List Scalar) : Scalar × Scalar :=
  (entry r (colIdx df "country"), entry r (colIdx df "date"))

/-- The grouping keys of all rows, in row order. -/
def keysOf (df : DF) : List (Scalar × Scalar) := df.rows.map (keyOf df)

/-- The rows of the group with key `k`, in their original order. -/
def groupRows (df : DF) (k : Scalar × Scalar) : List (List Scalar) :=
  df.rows.filter (fun r => decide (keyOf df r = k))

/-- One step of the pandas `'sum'` aggregation on an object column:
numbers add, strings concatenate, and a mixed-type step raises
`TypeError` (modelled as `none`). -/
def addScalar (a b : Scalar) : Option Scalar :=
  match a, b with
  | .num m, .num n => some (.num (m + n))
  | .str s, .str t => some (.str (s ++ t))
  | _, _ => none

/-- The pandas `'sum'` of a nonempty list of values: a left fold of
`addScalar` (groups are never empty, so the empty case never arises in
`stage4`). -/
def sumScalars : List Scalar → Option Scalar
  | [] => none
  | v :: vs => vs.foldlM addScalar v

/-- Lexicographic `≤` on character lists: Python string comparison by code
point. -/
def charListLe : List Char → List Char → Bool
  | [], _ => true
  | _ :: _, [] => false
  | a :: as, b :: bs => if a = b then charListLe as bs else decide (a < b)

/-- Python string `≤`. -/
def strLe (s t : String) : Bool := charListLe s.data t.data

/-- Total order on scalars used to sort group keys, exactly as pandas
orders one key level: on two numbers and on two strings it is the Python
comparison; across types it places numbers before strings before nulls —
the order of `safe_sort._sort_mixed`, the fallback pandas uses for a
mixed-type level instead of raising. -/
def scalarLe (a b : Scalar) : Bool :=
  match a, b with
  | .num m, .num n => decide (m ≤ n)
  | .str s, .str t => strLe s t
  | .num _, _ => true
  | .str _, .num _ => false
  | .str _, .null => true
  | .null, .null => true
  | .null, _ => false

/-- Lexicographic order on (country, date) keys, as pandas sorts groups. -/
def pairLe (a b : Scalar × Scalar) : Bool :=
  if a.1 = b.1 then scalarLe a.2 b.2 else scalarLe a.1 b.1

/-- Strict version of `pairLe`. -/
def pairLt (a b : Scalar × Scalar) : Bool := pairLe a b && !(pairLe b a)

/-- Strict lexicographic `<` on character lists: Python string `<`. -/
def charListLt : List Char → List Char → Bool
  | [], [] => false
  | [], _ :: _ => true
  | _ :: _, [] => false
  | a :: as, b :: bs => if a = b then charListLt as bs else decide (a < b)

/-- Python's `<` on scalars: defined within a type (numbers numerically,
strings lexicographically), `False` against `NaN`, and a `TypeError`
(`none`) between a number and a string.  Used to state what "ascending
sorted order" can mean at the spec's level; grouping keys are null-free
in this program, so the null cases are not exercised. -/
def pyScalarLt (a b : Scalar) : Option Bool :=
  match a, b with
  | .num m, .num n => some (decide (m < n))
  | .str s, .str t => some (charListLt s.data t.data)
  | .null, _ => some false
  | _, .null => some false
  | _, _ => none

/-- Python's `<` on (country, date) pairs (tuple comparison: first
components compared for equality, then the deciding component with `<`). -/
def pyPairLt (a b : Scalar × Scalar) : Option Bool :=
  if a.1 = b.1 then pyScalarLt a.2 b.2 else pyScalarLt a.1 b.1

/-- Insert into a sorted list (insertion sort step). -/
def insertLe {α : Type} (le : α → α → Bool) (a : α) : List α → List α
  | [] => [a]
  | b :: bs => if le a b then a :: b :: bs else b :: insertLe le a bs

/-- Insertion sort.  The group keys are distinct and `pairLe` is total on
them, so any correct sort yields the unique ascending enumeration that
pandas produces. -/
def sortLe {α : Type} (le : α → α → Bool) : List α → List α
  | [] => []
  | a :: as => insertLe le a (sortLe le as)

/-- Is a key column type-homogeneous (all strings or all numbers)?  Not a
failure condition — pandas sorts mixed levels via `_sort_mixed` — but when
both key levels are homogeneous the group order is also ascending in the
Python value comparison; used only to state that refinement of C10. -/
def levelHomogeneous (l : List Scalar) : Bool := l.all isStr || l.all isNum

/-- The distinct (country, date) pairs, in first-seen order. -/
def distinctKeys (df : DF) : List (Scalar × Scalar) := keepFirsts [] (keysOf df)

/-- The distinct (country, date) pairs in ascending order — the group
order of `groupby(..., sort=True)`. -/
def sortedKeys (df : DF) : List (Scalar × Scalar) := sortLe pairLe (distinctKeys df)

/-- The aggregated output row of one group: the key pair followed by the
sums of `cases`, `deaths` and `recovered` over the group's rows (`none` =
`TypeError` during summation). -/
def mkAggRow (df : DF) (k : Scalar × Scalar) : Option (List Scalar) :=
  match sumScalars ((groupRows df k).map (fun r => entry r (colIdx df "cases"))),
      sumScalars ((groupRows df k).map (fun r => entry r (colIdx df "deaths"))),
      sumScalars ((groupRows df k).map (fun r => entry r (colIdx df "recovered"))) with
  | some cs, some ds, some rc => some [k.1, k.2, cs, ds, rc]
  | _, _, _ => none

/-- The aggregated rows for a list of group keys (`none` = `TypeError`
during summation). -/
def aggRows (df : DF) : List (Scalar × Scalar) → Option (List (List Scalar))
  | [] => some []
  | k :: ks =>
    match mkAggRow df k, aggRows df ks with
    | some r, some rs => some (r :: rs)
    | _, _ => none

/-- Stage 4 (`app.py` lines 74-80): if the five required columns are
present, replace the dataset by the groupby aggregation — which fails only
when a group's sum is ill-typed (pandas `TypeError`); the key sort itself
never fails.  Otherwise pass the dataset through unchanged. -/
def stage4 (df : DF) : Except String DF :=
  if hasRequired df then
    match aggRows df (sortedKeys df) with
    | some rs => .ok ⟨requiredCols, rs⟩
    | none => .error "TypeError: unsupported operand types in sum"
  else .ok df

/-- Does the Stage 4 aggregation succeed, i.e. is every group's sum
well-typed?  This is the program's only aggregation failure mode. -/
def aggDefined (df : DF) : Bool := (aggRows df (sortedKeys df)).isSome

/-! ### The pipeline and the upload route -/

/-- The cleaning pipeline, Stages 1-4 (`app.py` lines 61-80). -/
def pipeline (df : DF) : Except String DF := do
  let d2 ← stage2 (stage1 df)
  stage4 (stage3 d2)

/-- An uploaded file: its submitted filename and the dataset the external
decoder would parse from its bytes (parsing itself is outside the core,
spec §2). -/
structure UploadedFile where
  filename : String
  parsed : DF

/-- A POST request to `/upload`: `file?` is the `'file'` entry of
`request.files`, if present. -/
structure UploadRequest where
  file? : Option UploadedFile

/-- The response of the route: a plain-text message, the rendered result
page for a cleaned dataset, or an unhandled exception bubbling up to the
transport layer. -/
inductive Response where
  | text (s : String)
  | page (df : DF)
  | serverError (e : String)
deriving DecidableEq, Repr

/-- The `/upload` route `upload_file` (`app.py` lines 36-91).  Saving the
raw upload to disk is external I/O and not modelled; the extension checks
are Python `str.endswith`, case-sensitive, in source order. -/
def upload_file (req : UploadRequest) : Response :=
  match req.file? with
  | none => .text "No file part"
  | some f =>
    if f.filename = "" then .text "No selected file"
    else if pyEndsWith f.filename ".csv" || pyEndsWith f.filename ".json" then
      match pipeline f.parsed with
      | .ok d => .page d
      | .error e => .serverError e
    else .text "Unsupported file format"

/-! ### Spec-side definition for the Stage 2 claim -/

/-- Helper for `specTitle`; the flag records whether the previous
character was non-whitespace (inside a word). -/
def specTitleAux : Bool → List Char → List Char
  | _, [] => []
  | inw, c :: cs =>
    (if pyIsSpace c then c else if inw then c.toLower else c.toUpper) ::
      specTitleAux (!pyIsSpace c) cs

/-- Modelled from the spec: the spec's description of title-casing — "first
letter of each whitespace-separated word capitalized, rest lowercased" —
where a word is a maximal run of non-whitespace characters.  Used to
compare the spec's description of Stage 2 against the code's
`str.title()`. -/
def specTitle (s : String) : String := ⟨specTitleAux false s.data⟩

/-- The cell-level contract of Stage 2's country cleaning, used to state
the amended C3 claim: columns unchanged; row-wise, every non-country cell
is untouched, a null country value stays null, a numeric country value
becomes null, and a string country value becomes its stripped,
title-cased form; moreover every output country value is null or a string
with no leading/trailing whitespace that is a fixpoint of `str.title`. -/
def stage2Spec (df E : DF) : Prop :=
  E.cols = df.cols
  ∧ List.Forall₂ (fun r r' =>
      (∀ j, j ≠ colIdx df "country" → entry r' j = entry r j)
      ∧ (entry r (colIdx df "country") = Scalar.null →
          entry r' (colIdx df "country") = Scalar.null)
      ∧ (∀ n, entry r (colIdx df "country") = Scalar.num n →
          entry r' (colIdx df "country") = Scalar.null)
      ∧ (∀ s, entry r (colIdx df "country") = Scalar.str s →
          entry r' (colIdx df "country") = Scalar.str (pyTitle (pyStrip s))))
      df.rows E.rows
  ∧ ∀ v ∈ colVals E "country", v = Scalar.null
      ∨ ∃ t, v = Scalar.str t
          ∧ (∀ c ∈ t.data.head?, pyIsSpace c = false)
          ∧ (∀ c ∈ t.data.getLast?, pyIsSpace c = false)
          ∧ pyTitle t = t

/-- The contract of a successful Stage 4 aggregation, used to state the
amended C1 claim: one output row per distinct (country, date) pair of the
input, and each output row's `cases`/`deaths`/`recovered` entry is the
pandas sum of that column over the rows of the group matching the output
row's own (country, date) pair. -/
def aggSpec (df : DF) (rs : List (List Scalar)) : Prop :=
  rs.length = (keysOf df).toFinset.card
  ∧ ∀ r ∈ rs,
      sumScalars ((groupRows df (entry r 0, entry r 1)).map
        (fun q => entry q (colIdx df "cases"))) = some (entry r 2)
      ∧ sumScalars ((groupRows df (entry r 0, entry r 1)).map
        (fun q => entry q (colIdx df "deaths"))) = some (entry r 3)
      ∧ sumScalars ((groupRows df (entry r 0, entry r 1)).map
        (fun q => entry q (colIdx df "recovered"))) = some (entry r 4)

/-! ### Concrete datasets used by witnesses and counterexamples -/

/-- A null-free post-Stage-3 dataset whose `cases` column mixes a number
and a string inside one (country, date) group: pandas
`groupby(...).agg({'cases': 'sum'})` raises `TypeError` on it. -/
def dfC1mix : DF :=
  ⟨requiredCols,
   [[.str "A", .str "d", .num 1, .num 1, .num 1],
    [.str "A", .str "d", .str "x", .num 2, .num 2]]⟩

/-- A null-free dataset with the five required columns and two groups. -/
def dfC1w : DF :=
  ⟨requiredCols,
   [[.str "B", .str "d", .num 1, .num 2, .num 3],
    [.str "A", .str "d", .num 10, .num 20, .num 30],
    [.str "B", .str "d", .num 5, .num 5, .num 5]]⟩

/-- A dataset with a `country` column holding a string (with inner and
outer whitespace), a null, and a number. -/
def dfC3w : DF :=
  ⟨["country"], [[.str " north  korea "], [.null], [.num 7]]⟩

/-- The spec's concrete scenario (§8): raw column names with capitals, two
rows that become identical after cleaning. -/
def dfC6w : DF :=
  ⟨["Country", "Date", "Cases", "Deaths", "Recovered"],
   [[.str "  usa ", .str "2020-01-01", .num 5, .num 1, .num 2],
    [.str "USA", .str "2020-01-01", .num 5, .num 1, .num 2]]⟩

/-- A dataset whose `country` column is purely numeric: the `.str`
accessor of Stage 2 raises `AttributeError` on it. -/
def dfC6bad : DF := ⟨["country"], [[.num 1]]⟩

/-- A dataset with the five required columns plus an extra one; its
`date` key level even mixes a number and a string (the program still
aggregates it). -/
def dfC9w : DF :=
  ⟨requiredCols ++ ["extra"],
   [[.str "A", .num 5, .num 1, .num 2, .num 3, .num 9],
    [.str "B", .str "d", .num 4, .num 5, .num 6, .num 9]]⟩

/-- A dataset whose group keys appear out of sorted order. -/
def dfC10w : DF :=
  ⟨requiredCols,
   [[.str "B", .str "d", .num 1, .num 1, .num 1],
    [.str "A", .str "d", .num 2, .num 2, .num 2]]⟩

/-- A null-free dataset with the five required columns whose `date` key
level mixes a string and a number: pandas aggregates it (no error), but
its two group keys are not comparable by Python `<`, so the output order
is `_sort_mixed`'s numbers-before-strings order, not an ascending value
order. -/
def dfC10mix : DF :=
  ⟨requiredCols,
   [[.str "A", .str "b", .num 1, .num 1, .num 1],
    [.str "A", .num 5, .num 2, .num 2, .num 2]]⟩

/-! ### Character-level lemmas -/

theorem toNat_ofNat_valid (n : Nat) (h : n.isValidChar) : (Char.ofNat n).toNat = n := by
  rw [Char.ofNat, dif_pos h]; rfl

theorem toNat_inj {c d : Char} (h : c.toNat = d.toNat) : c = d := by
  exact Char.ext (UInt32.toNat.inj h)

theorem toLower_toNat_of_upper {c : Char} (h : 65 ≤ c.toNat ∧ c.toNat ≤ 90) :
    c.toLower.toNat = c.toNat + 32 := by
  unfold Char.toLower
  rw [if_pos ⟨h.1, h.2⟩]
  exact toNat_ofNat_valid _ (Or.inl (by omega))

theorem toLower_eq_of_not_upper {c : Char} (h : ¬(65 ≤ c.toNat ∧ c.toNat ≤ 90)) :
    c.toLower = c := by
  unfold Char.toLower
  rw [if_neg]
  exact fun hc => h ⟨hc.1, hc.2⟩

theorem toLower_toLower (c : Char) : c.toLower.toLower = c.toLower := by
  by_cases h : 65 ≤ c.toNat ∧ c.toNat ≤ 90
  · apply toLower_eq_of_not_upper
    rw [toLower_toNat_of_upper h]
    omega
  · rw [toLower_eq_of_not_upper h]
    exact toLower_eq_of_not_upper h

theorem toUpper_toNat_of_lower {c : Char} (h : 97 ≤ c.toNat ∧ c.toNat ≤ 122) :
    c.toUpper.toNat = c.toNat - 32 := by
  unfold Char.toUpper
  rw [if_pos ⟨h.1, h.2⟩]
  exact toNat_ofNat_valid _ (Or.inl (by omega))

theorem toUpper_eq_of_not_lower {c : Char} (h : ¬(97 ≤ c.toNat ∧ c.toNat ≤ 122)) :
    c.toUpper = c := by
  unfold Char.toUpper
  rw [if_neg]
  exact fun hc => h ⟨hc.1, hc.2⟩

theorem toLower_eq_space_iff {c : Char} : c.toLower = ' ' ↔ c = ' ' := by
  constructor
  · intro h
    by_cases hu : 65 ≤ c.toNat ∧ c.toNat ≤ 90
    · exfalso
      have h32 : c.toLower.toNat = 32 := by rw [h]; rfl
      rw [toLower_toNat_of_upper hu] at h32
      omega
    · rwa [toLower_eq_of_not_upper hu] at h
  · intro h; subst h; rfl

theorem normChar_normChar (c : Char) : normChar (normChar c) = normChar c := by
  unfold normChar
  by_cases h : c.toLower = ' '
  · rw [if_pos h, if_neg (by decide)]
    decide
  · rw [if_neg h, if_neg (by rw [toLower_toLower]; exact h)]
    exact toLower_toLower c

theorem normName_normName (s : String) : normName (normName s) = normName s := by
  unfold normName
  show (⟨(s.data.map normChar).map normChar⟩ : String) = ⟨s.data.map normChar⟩
  rw [List.map_map]
  exact congrArg String.mk (List.map_congr_left fun c _ => normChar_normChar c)

/-- C4: Stage 1 column-name normalization is idempotent on every dataset. -/
theorem claim_C4_stage1_idempotent (df : DF) : stage1 (stage1 df) = stage1 df := by
  unfold stage1
  simp only [DF.mk.injEq, and_true, List.map_map]
  exact List.map_congr_left fun s _ => normName_normName s

/-! ### keepFirsts lemmas (`drop_duplicates`) -/

theorem mem_keepFirsts {α : Type} [DecidableEq α] {x : α} {seen l : List α} :
    x ∈ keepFirsts seen l ↔ x ∈ l ∧ x ∉ seen := by
  induction l generalizing seen with
  | nil => simp [keepFirsts]
  | cons a l ih =>
    unfold keepFirsts
    by_cases ha : a ∈ seen
    · rw [if_pos ha, ih]
      constructor
      · rintro ⟨hl, hs⟩
        exact ⟨List.mem_cons_of_mem _ hl, hs⟩
      · rintro ⟨hl, hs⟩
        rcases List.mem_cons.mp hl with rfl | hl
        · exact absurd ha hs
        · exact ⟨hl, hs⟩
    · rw [if_neg ha]
      simp only [List.mem_cons, ih]
      constructor
      · rintro (rfl | ⟨hl, hs⟩)
        · exact ⟨Or.inl rfl, ha⟩
        · exact ⟨Or.inr hl, fun hx => hs (Or.inr hx)⟩
      · rintro ⟨rfl | hl, hs⟩
        · exact Or.inl rfl
        · by_cases hxa : x = a
          · exact Or.inl hxa
          · exact Or.inr ⟨hl, fun h => h.elim hxa hs⟩

theorem keepFirsts_sublist {α : Type} [DecidableEq α] (seen l : List α) :
    (keepFirsts seen l).Sublist l := by
  induction l generalizing seen with
  | nil => simp [keepFirsts]
  | cons a l ih =>
    unfold keepFirsts
    by_cases ha : a ∈ seen
    · rw [if_pos ha]; exact (ih seen).cons a
    · rw [if_neg ha]; exact (ih (a :: seen)).cons₂ a

theorem keepFirsts_nodup {α : Type} [DecidableEq α] (seen l : List α) :
    (keepFirsts seen l).Nodup := by
  induction l generalizing seen with
  | nil => simp [keepFirsts]
  | cons a l ih =>
    unfold keepFirsts
    by_cases ha : a ∈ seen
    · rw [if_pos ha]; exact ih seen
    · rw [if_neg ha]
      refine List.Nodup.cons ?_ (ih (a :: seen))
      intro hmem
      exact (mem_keepFirsts.mp hmem).2 (List.mem_cons_self a seen)

theorem firstIdx_cons_self {α : Type} [DecidableEq α] (x : α) (l : List α) :
    firstIdx x (x :: l) = 0 := by
  simp [firstIdx]

theorem firstIdx_cons_ne {α : Type} [DecidableEq α] {a x : α} (l : List α) (h : a ≠ x) :
    firstIdx x (a :: l) = firstIdx x l + 1 := by
  simp [firstIdx, h]

/-- The retained occurrences come in first-occurrence order: the output of
`keepFirsts` is strictly increasing in the position of each value's first
occurrence in the input list. -/
theorem keepFirsts_pairwise_firstIdx {α : Type} [DecidableEq α] (seen l : List α) :
    (keepFirsts seen l).Pairwise (fun x y => firstIdx x l < firstIdx y l) := by
  induction l generalizing seen with
  | nil => simp [keepFirsts]
  | cons a l ih =>
    unfold keepFirsts
    by_cases ha : a ∈ seen
    · rw [if_pos ha]
      refine (ih seen).imp_of_mem ?_
      intro x y hx hy hxy
      have hax : a ≠ x := fun h => (mem_keepFirsts.mp hx).2 (h ▸ ha)
      have hay : a ≠ y := fun h => (mem_keepFirsts.mp hy).2 (h ▸ ha)
      rw [firstIdx_cons_ne _ hax, firstIdx_cons_ne _ hay]
      exact Nat.succ_lt_succ hxy
    · rw [if_neg ha]
      refine List.Pairwise.cons ?_ ?_
      · intro y hy
        have hay : a ≠ y := fun h =>
          (mem_keepFirsts.mp hy).2 (h ▸ List.mem_cons_self a seen)
        rw [firstIdx_cons_self, firstIdx_cons_ne _ hay]
        exact Nat.succ_pos _
      · refine (ih (a :: seen)).imp_of_mem ?_
        intro x y hx hy hxy
        have hax : a ≠ x := fun h =>
          (mem_keepFirsts.mp hx).2 (h ▸ List.mem_cons_self a seen)
        have hay : a ≠ y := fun h =>
          (mem_keepFirsts.mp hy).2 (h ▸ List.mem_cons_self a seen)
        rw [firstIdx_cons_ne _ hax, firstIdx_cons_ne _ hay]
        exact Nat.succ_lt_succ hxy

/-- C2: for every dataset `D`, the output of Stage 3 has the same columns,
contains no row with a null value and no two identical rows; every
null-free row of `D` is retained; retained rows keep their relative order
from `D` (the output is a sublist), and they appear ordered by the
position of their first occurrence among the null-free rows — i.e. the
first occurrence is the one retained and later duplicates are dropped. -/
theorem claim_C2_stage3 (df : DF) :
    (stage3 df).cols = df.cols
    ∧ (∀ r ∈ (stage3 df).rows, Scalar.null ∉ r)
    ∧ (stage3 df).rows.Nodup
    ∧ (stage3 df).rows.Sublist df.rows
    ∧ (∀ r ∈ df.rows, Scalar.null ∉ r → r ∈ (stage3 df).rows)
    ∧ (stage3 df).rows.Pairwise (fun x y =>
        firstIdx x (df.rows.filter rowNoNull) < firstIdx y (df.rows.filter rowNoNull)) := by
  refine ⟨rfl, ?_, keepFirsts_nodup _ _,
    (keepFirsts_sublist _ _).trans (List.filter_sublist _), ?_,
    keepFirsts_pairwise_firstIdx _ _⟩
  · intro r hr
    have h1 := (mem_keepFirsts.mp hr).1
    have h2 := (List.mem_filter.mp h1).2
    simpa [rowNoNull] using h2
  · intro r hr hnn
    apply mem_keepFirsts.mpr
    refine ⟨List.mem_filter.mpr ⟨hr, ?_⟩, List.not_mem_nil r⟩
    exact decide_eq_true hnn

/-! ### Stage 4 pass-through (C5) and the upload route (C7, C8) -/

/-- C5: if the dataset entering Stage 4 lacks at least one of the five
required columns, Stage 4 returns it unchanged — same columns, same rows,
identical values (`app.py` line 74: the `if` guard fails and `df` is left
as is). -/
theorem claim_C5_stage4_passthrough (df : DF) (h : hasRequired df = false) :
    stage4 df = .ok df := by
  simp [stage4, h]

/-- Witness for C5 at a concrete dataset missing the `cases`, `deaths`
and `recovered` columns. -/
theorem claim_C5_stage4_passthrough_witness :
    stage4 (DF.mk ["country", "date"] [[Scalar.str "A", Scalar.str "d"]])
      = .ok (DF.mk ["country", "date"] [[Scalar.str "A", Scalar.str "d"]]) :=
  claim_C5_stage4_passthrough _ (by decide)

/-- C7: an upload whose (nonempty) filename ends neither in `.csv` nor in
`.json` gets the plain-text response "Unsupported file format", and the
cleaning pipeline is not invoked (the response is not a result page and
not a pipeline failure; `app.py` lines 53-58). -/
theorem claim_C7_unsupported_format (req : UploadRequest) (f : UploadedFile)
    (hf : req.file? = some f) (hne : f.filename ≠ "")
    (hcsv : pyEndsWith f.filename ".csv" = false)
    (hjson : pyEndsWith f.filename ".json" = false) :
    upload_file req = .text "Unsupported file format" := by
  unfold upload_file
  rw [hf]
  simp [hne, hcsv, hjson]

/-- Witness for C7: uploading `data.txt`. -/
theorem claim_C7_unsupported_format_witness :
    upload_file ⟨some ⟨"data.txt", DF.mk [] []⟩⟩ = .text "Unsupported file format" :=
  claim_C7_unsupported_format _ _ rfl (by decide) (by decide) (by decide)

/-- C8: a request with no `'file'` part gets the plain-text response
"No file part"; a request whose file has an empty filename gets
"No selected file"; in both cases the pipeline is not invoked (the
response is a plain text message; `app.py` lines 36-43). -/
theorem claim_C8_missing_file :
    (∀ req : UploadRequest, req.file? = none → upload_file req = .text "No file part")
    ∧ (∀ (req : UploadRequest) (f : UploadedFile), req.file? = some f →
        f.filename = "" → upload_file req = .text "No selected file") := by
  constructor
  · intro req h
    unfold upload_file
    rw [h]
  · intro req f h he
    unfold upload_file
    rw [h]
    simp [he]

/-- Witness for C8 at concrete requests. -/
theorem claim_C8_missing_file_witness :
    upload_file ⟨none⟩ = .text "No file part"
    ∧ upload_file ⟨some ⟨"", DF.mk [] []⟩⟩ = .text "No selected file" :=
  ⟨claim_C8_missing_file.1 _ rfl, claim_C8_missing_file.2 _ _ rfl rfl⟩

/-! ### Order lemmas for the group-key sort -/

theorem charListLe_total (a b : List Char) : charListLe a b = true ∨ charListLe b a = true := by
  induction a generalizing b with
  | nil => left; rfl
  | cons x xs ih =>
    cases b with
    | nil => right; rfl
    | cons y ys =>
      unfold charListLe
      by_cases hxy : x = y
      · subst hxy
        rw [if_pos rfl, if_pos rfl]
        exact ih ys
      · rw [if_neg hxy, if_neg (Ne.symm hxy)]
        rcases lt_trichotomy x y with h | h | h
        · left; exact decide_eq_true h
        · exact absurd h hxy
        · right; exact decide_eq_true h

theorem charListLe_trans {a b c : List Char} (hab : charListLe a b = true)
    (hbc : charListLe b c = true) : charListLe a c = true := by
  induction a generalizing b c with
  | nil => rfl
  | cons x xs ih =>
    cases b with
    | nil => exact absurd hab (by simp [charListLe])
    | cons y ys =>
      cases c with
      | nil => exact absurd hbc (by simp [charListLe])
      | cons z zs =>
        unfold charListLe at hab hbc ⊢
        by_cases hxy : x = y
        · subst hxy
          rw [if_pos rfl] at hab
          by_cases hyz : x = z
          · subst hyz
            rw [if_pos rfl] at hbc
            rw [if_pos rfl]
            exact ih hab hbc
          · rw [if_neg hyz] at hbc
            rw [if_neg hyz]
            exact hbc
        · rw [if_neg hxy] at hab
          have hxy' : x < y := of_decide_eq_true hab
          by_cases hyz : y = z
          · subst hyz
            rw [if_neg hxy]
            exact decide_eq_true hxy'
          · rw [if_neg hyz] at hbc
            have hyz' : y < z := of_decide_eq_true hbc
            have hxz : x < z := lt_trans hxy' hyz'
            rw [if_neg (ne_of_lt hxz)]
            exact decide_eq_true hxz

theorem charListLe_antisymm {a b : List Char} (hab : charListLe a b = true)
    (hba : charListLe b a = true) : a = b := by
  induction a generalizing b with
  | nil =>
    cases b with
    | nil => rfl
    | cons y ys => exact absurd hba (by simp [charListLe])
  | cons x xs ih =>
    cases b with
    | nil => exact absurd hab (by simp [charListLe])
    | cons y ys =>
      unfold charListLe at hab hba
      by_cases hxy : x = y
      · subst hxy
        rw [if_pos rfl] at hab hba
        exact congrArg (x :: ·) (ih hab hba)
      · rw [if_neg hxy] at hab
        rw [if_neg (Ne.symm hxy)] at hba
        exact absurd (of_decide_eq_true hba) (lt_asymm (of_decide_eq_true hab))

theorem strLe_total (s t : String) : strLe s t = true ∨ strLe t s = true :=
  charListLe_total s.data t.data

theorem strLe_trans {s t u : String} (h1 : strLe s t = true) (h2 : strLe t u = true) :
    strLe s u = true :=
  charListLe_trans h1 h2

theorem strLe_antisymm {s t : String} (h1 : strLe s t = true) (h2 : strLe t s = true) :
    s = t := by
  cases s with
  | mk sd =>
    cases t with
    | mk td => exact congrArg String.mk (charListLe_antisymm h1 h2)

theorem scalarLe_total (a b : Scalar) : scalarLe a b = true ∨ scalarLe b a = true := by
  cases a <;> cases b <;> simp [scalarLe]
  · exact strLe_total _ _
  · exact le_total _ _

theorem scalarLe_trans {a b c : Scalar} (hab : scalarLe a b = true)
    (hbc : scalarLe b c = true) : scalarLe a c = true := by
  cases a <;> cases b <;> cases c <;> simp_all [scalarLe]
  · exact strLe_trans hab hbc
  · exact le_trans hab hbc

theorem scalarLe_antisymm {a b : Scalar} (hab : scalarLe a b = true)
    (hba : scalarLe b a = true) : a = b := by
  cases a <;> cases b <;> simp_all [scalarLe]
  · exact strLe_antisymm hab hba
  · exact le_antisymm hab hba

theorem pairLe_total (a b : Scalar × Scalar) : pairLe a b = true ∨ pairLe b a = true := by
  unfold pairLe
  by_cases h : a.1 = b.1
  · rw [if_pos h, if_pos h.symm]
    exact scalarLe_total _ _
  · rw [if_neg h, if_neg (Ne.symm h)]
    exact scalarLe_total _ _

theorem pairLe_trans {a b c : Scalar × Scalar} (hab : pairLe a b = true)
    (hbc : pairLe b c = true) : pairLe a c = true := by
  unfold pairLe at hab hbc ⊢
  by_cases h1 : a.1 = b.1
  · rw [if_pos h1] at hab
    by_cases h2 : b.1 = c.1
    · rw [if_pos h2] at hbc
      rw [if_pos (h1.trans h2)]
      exact scalarLe_trans hab hbc
    · rw [if_neg h2] at hbc
      rw [if_neg (h1 ▸ h2), h1]
      exact hbc
  · rw [if_neg h1] at hab
    by_cases h2 : b.1 = c.1
    · rw [if_neg (h2 ▸ h1), ← h2]
      exact hab
    · rw [if_neg h2] at hbc
      by_cases h3 : a.1 = c.1
      · exfalso
        apply h1
        rw [scalarLe_antisymm hab (h3 ▸ hbc)]
      · rw [if_neg h3]
        exact scalarLe_trans hab hbc

theorem pairLe_antisymm {a b : Scalar × Scalar} (hab : pairLe a b = true)
    (hba : pairLe b a = true) : a = b := by
  unfold pairLe at hab hba
  by_cases h : a.1 = b.1
  · rw [if_pos h] at hab
    rw [if_pos h.symm] at hba
    exact Prod.ext h (scalarLe_antisymm hab hba)
  · rw [if_neg h] at hab
    rw [if_neg (Ne.symm h)] at hba
    exact absurd (scalarLe_antisymm hab hba) h

theorem pairLt_of_le_of_ne {a b : Scalar × Scalar} (h : pairLe a b = true) (hne : a ≠ b) :
    pairLt a b = true := by
  unfold pairLt
  rw [h, Bool.true_and, Bool.not_eq_true']
  by_contra hba
  rw [Bool.not_eq_false] at hba
  exact hne (pairLe_antisymm h hba)

/-! ### Insertion sort lemmas -/

theorem insertLe_perm {α : Type} (le : α → α → Bool) (a : α) (l : List α) :
    (insertLe le a l).Perm (a :: l) := by
  induction l with
  | nil => exact List.Perm.refl _
  | cons b bs ih =>
    unfold insertLe
    by_cases h : le a b = true
    · rw [if_pos h]
    · rw [if_neg h]
      exact (List.Perm.cons b ih).trans (List.Perm.swap a b bs)

theorem sortLe_perm {α : Type} (le : α → α → Bool) (l : List α) :
    (sortLe le l).Perm l := by
  induction l with
  | nil => exact List.Perm.refl _
  | cons a as ih =>
    unfold sortLe
    exact (insertLe_perm le a (sortLe le as)).trans (List.Perm.cons a ih)

theorem insertLe_sorted {α : Type} {le : α → α → Bool}
    (htot : ∀ x y, le x y = true ∨ le y x = true)
    (htrans : ∀ x y z, le x y = true → le y z = true → le x z = true)
    (a : α) {l : List α} (hl : l.Pairwise (fun x y => le x y = true)) :
    (insertLe le a l).Pairwise (fun x y => le x y = true) := by
  induction l with
  | nil => simp [insertLe]
  | cons b bs ih =>
    rcases List.pairwise_cons.mp hl with ⟨hb, hbs⟩
    unfold insertLe
    by_cases h : le a b = true
    · rw [if_pos h]
      refine List.pairwise_cons.mpr ⟨?_, hl⟩
      intro y hy
      rcases List.mem_cons.mp hy with rfl | hy
      · exact h
      · exact htrans a b y h (hb y hy)
    · rw [if_neg h]
      refine List.pairwise_cons.mpr ⟨?_, ih hbs⟩
      intro y hy
      have hy' : y = a ∨ y ∈ bs :=
        List.mem_cons.mp ((insertLe_perm le a bs).mem_iff.mp hy)
      rcases hy' with rfl | hy'
      · exact (htot y b).resolve_left h
      · exact hb y hy'

theorem sortLe_sorted {α : Type} {le : α → α → Bool}
    (htot : ∀ x y, le x y = true ∨ le y x = true)
    (htrans : ∀ x y z, le x y = true → le y z = true → le x z = true)
    (l : List α) : (sortLe le l).Pairwise (fun x y => le x y = true) := by
  induction l with
  | nil => simp [sortLe]
  | cons a as ih =>
    unfold sortLe
    exact insertLe_sorted htot htrans a ih

/-- The sorted distinct keys are strictly ascending in the key order. -/
theorem sortedKeys_strict (df : DF) :
    (sortedKeys df).Pairwise (fun x y => pairLt x y = true) := by
  have hperm := sortLe_perm pairLe (distinctKeys df)
  have hnd : (sortedKeys df).Nodup :=
    (hperm.nodup_iff).mpr (keepFirsts_nodup _ _)
  have hsorted : (sortedKeys df).Pairwise (fun x y => pairLe x y = true) :=
    sortLe_sorted pairLe_total (fun _ _ _ => pairLe_trans) (distinctKeys df)
  have := hsorted.and hnd
  refine this.imp ?_
  rintro x y ⟨hle, hne⟩
  exact pairLt_of_le_of_ne hle hne

/-! ### Aggregation lemmas -/

theorem mkAggRow_eq_some {df : DF} {k : Scalar × Scalar} {r : List Scalar} :
    mkAggRow df k = some r ↔
      ∃ cs ds rc,
        sumScalars ((groupRows df k).map (fun q => entry q (colIdx df "cases"))) = some cs
        ∧ sumScalars ((groupRows df k).map (fun q => entry q (colIdx df "deaths"))) = some ds
        ∧ sumScalars ((groupRows df k).map (fun q => entry q (colIdx df "recovered"))) = some rc
        ∧ r = [k.1, k.2, cs, ds, rc] := by
  constructor
  · intro h
    unfold mkAggRow at h
    split at h
    · rename_i cs ds rc h1 h2 h3
      exact ⟨cs, ds, rc, h1, h2, h3, (Option.some.injEq _ _ ▸ h).symm⟩
    · exact absurd h (by simp)
  · rintro ⟨cs, ds, rc, h1, h2, h3, rfl⟩
    unfold mkAggRow
    rw [h1, h2, h3]

theorem aggRows_eq_some {df : DF} {ks : List (Scalar × Scalar)} {rs : List (List Scalar)} :
    aggRows df ks = some rs ↔
      List.Forall₂ (fun k r => mkAggRow df k = some r) ks rs := by
  induction ks generalizing rs with
  | nil =>
    simp only [aggRows, Option.some.injEq, List.forall₂_nil_left_iff]
    exact ⟨fun h => h.symm, fun h => h.symm⟩
  | cons k ks ih =>
    constructor
    · intro h
      unfold aggRows at h
      split at h
      · rename_i r rs' hr hrs'
        cases Option.some.injEq _ _ ▸ h
        exact List.Forall₂.cons hr (ih.mp hrs')
      · exact absurd h (by simp)
    · intro h
      cases h with
      | cons hr hrs' =>
        unfold aggRows
        rw [hr, ih.mpr hrs']

theorem forall₂_exists_left {α β : Type} {R : α → β → Prop} :
    ∀ {ks : List α} {rs : List β}, List.Forall₂ R ks rs →
      ∀ r ∈ rs, ∃ k ∈ ks, R k r := by
  intro ks rs h
  induction h with
  | nil => intro r hr; cases hr
  | cons hr hrs ih =>
    intro r hmem
    rcases List.mem_cons.mp hmem with rfl | hm
    · exact ⟨_, List.mem_cons_self _ _, hr⟩
    · obtain ⟨k', hk', hR⟩ := ih r hm
      exact ⟨k', List.mem_cons_of_mem _ hk', hR⟩

theorem pairwise_of_forall₂ {α β : Type} {R : α → β → Prop} {P : α → α → Prop}
    {Q : β → β → Prop} :
    ∀ {ks : List α} {rs : List β}, List.Forall₂ R ks rs → List.Pairwise P ks →
      (∀ k r k' r', R k r → R k' r' → P k k' → Q r r') → List.Pairwise Q rs := by
  intro ks rs h
  induction h with
  | nil => intro _ _; exact List.Pairwise.nil
  | cons hr hrs ih =>
    intro hp himp
    rcases List.pairwise_cons.mp hp with ⟨hhead, htail⟩
    refine List.pairwise_cons.mpr ⟨?_, ih htail himp⟩
    intro r' hr'
    obtain ⟨k', hk', hR⟩ := forall₂_exists_left hrs r' hr'
    exact himp _ _ _ _ hr hR (hhead k' hk')

/-- The distinct (country, date) pairs number exactly
`(keysOf df).toFinset.card`. -/
theorem distinctKeys_length (df : DF) :
    (distinctKeys df).length = (keysOf df).toFinset.card := by
  unfold distinctKeys
  rw [← List.toFinset_card_of_nodup (keepFirsts_nodup [] (keysOf df))]
  congr 1
  ext k
  simp [List.mem_toFinset, mem_keepFirsts]

theorem stage4_agg_eq {df : DF} {rs : List (List Scalar)} (h5 : hasRequired df = true)
    (ha : aggRows df (sortedKeys df) = some rs) :
    stage4 df = .ok ⟨requiredCols, rs⟩ := by
  simp [stage4, h5, ha]

/-- C1, amended: Stage 4 replaces the dataset with the groupby aggregation
iff the five required columns are present AND every group's
`cases`/`deaths`/`recovered` sum is well-typed (numbers add, strings
concatenate; a fold mixing the two raises `TypeError`) — the grouping and
the key sort themselves never fail, mixed-type keys included.  When it
aggregates, the output has one row per distinct (country, date) pair of
the input, and each output row's `cases`/`deaths`/`recovered` value is
the pandas sum of that column over the rows of the group that matches the
output row's own (country, date) pair.  With the five columns present but
an ill-typed sum, Stage 4 raises a `TypeError` instead of producing a
dataset.  The hypothesis restricts to null-free datasets: that is the
domain Stage 4 sees in the program (Stage 3 output), and the domain on
which this embedding of `groupby` is faithful (pandas additionally drops
null keys and skips null values in sums, behaviour this model does not
reproduce). -/
theorem claim_C1_conditional_aggregation (df : DF)
    (_hnn : ∀ r ∈ df.rows, Scalar.null ∉ r) :
    (hasRequired df = false → stage4 df = .ok df)
    ∧ (hasRequired df = true → aggDefined df = false → ∃ e, stage4 df = .error e)
    ∧ (hasRequired df = true → aggDefined df = true →
        ∃ rs, stage4 df = .ok ⟨requiredCols, rs⟩ ∧ aggSpec df rs) := by
  refine ⟨fun h => by simp [stage4, h], ?_, ?_⟩
  · intro h5 hnd
    unfold aggDefined at hnd
    cases ha : aggRows df (sortedKeys df) with
    | none =>
      exact ⟨"TypeError: unsupported operand types in sum", by simp [stage4, h5, ha]⟩
    | some rs => rw [ha] at hnd; simp at hnd
  · intro h5 hok
    unfold aggDefined at hok
    obtain ⟨rs, ha⟩ := Option.isSome_iff_exists.mp hok
    refine ⟨rs, stage4_agg_eq h5 ha, ?_, ?_⟩
    · calc rs.length
          = (sortedKeys df).length := (aggRows_eq_some.mp ha).length_eq.symm
        _ = (distinctKeys df).length := (sortLe_perm pairLe (distinctKeys df)).length_eq
        _ = (keysOf df).toFinset.card := distinctKeys_length df
    · intro r hr
      obtain ⟨k, _, hk⟩ := forall₂_exists_left (aggRows_eq_some.mp ha) r hr
      obtain ⟨cs, ds, rc, h1, h2, h3, rfl⟩ := mkAggRow_eq_some.mp hk
      have hkey : (k.1, k.2) = k := Prod.mk.eta
      constructor
      · show sumScalars ((groupRows df (k.1, k.2)).map _) = some cs
        rw [hkey]; exact h1
      constructor
      · show sumScalars ((groupRows df (k.1, k.2)).map _) = some ds
        rw [hkey]; exact h2
      · show sumScalars ((groupRows df (k.1, k.2)).map _) = some rc
        rw [hkey]; exact h3

/-- C9: when Stage 4 aggregates (five required columns present,
aggregation defined), the output's columns are exactly
`country, date, cases, deaths, recovered` — every additional column of the
input is dropped (the `groupby(...).agg({...}).reset_index()` result
carries only the two key columns and the three aggregated columns).  The
null-free hypothesis restricts to Stage 4's actual input domain (Stage 3
output). -/
theorem claim_C9_extra_columns_dropped (df : DF)
    (_hnn : ∀ r ∈ df.rows, Scalar.null ∉ r)
    (h5 : hasRequired df = true) (hok : aggDefined df = true) :
    ∃ E, stage4 df = .ok E ∧ E.cols = ["country", "date", "cases", "deaths", "recovered"] := by
  unfold aggDefined at hok
  obtain ⟨rs, ha⟩ := Option.isSome_iff_exists.mp hok
  exact ⟨⟨requiredCols, rs⟩, stage4_agg_eq h5 ha, rfl⟩

theorem charListLt_of_le_not_le :
    ∀ {a b : List Char}, charListLe a b = true → charListLe b a = false →
      charListLt a b = true := by
  intro a
  induction a with
  | nil =>
    intro b hab hba
    cases b with
    | nil => cases hba
    | cons y ys => rfl
  | cons x xs ih =>
    intro b hab hba
    cases b with
    | nil => cases hab
    | cons y ys =>
      unfold charListLe at hab hba
      unfold charListLt
      by_cases hxy : x = y
      · subst hxy
        rw [if_pos rfl] at hab hba
        rw [if_pos rfl]
        exact ih hab hba
      · rw [if_neg hxy] at hab
        rw [if_neg hxy]
        exact hab

theorem levelHomogeneous_mem {l : List Scalar} {a b : Scalar}
    (h : levelHomogeneous l = true) (ha : a ∈ l) (hb : b ∈ l) :
    (isStr a = true ∧ isStr b = true) ∨ (isNum a = true ∧ isNum b = true) := by
  unfold levelHomogeneous at h
  rw [Bool.or_eq_true, List.all_eq_true, List.all_eq_true] at h
  rcases h with h | h
  · exact Or.inl ⟨h a ha, h b hb⟩
  · exact Or.inr ⟨h a ha, h b hb⟩

theorem scalarLt_py {a b : Scalar}
    (hty : (isStr a = true ∧ isStr b = true) ∨ (isNum a = true ∧ isNum b = true))
    (hle : scalarLe a b = true) (hnle : scalarLe b a = false) :
    pyScalarLt a b = some true := by
  rcases hty with ⟨ha, hb⟩ | ⟨ha, hb⟩
  · cases a with
    | str s =>
      cases b with
      | str t =>
        show some (charListLt s.data t.data) = some true
        rw [charListLt_of_le_not_le hle hnle]
      | num n => cases hb
      | null => cases hb
    | num m => cases ha
    | null => cases ha
  · cases a with
    | num m =>
      cases b with
      | num n =>
        have h1 : m ≤ n := of_decide_eq_true hle
        have h2 : ¬ n ≤ m := of_decide_eq_false hnle
        show some (decide (m < n)) = some true
        rw [decide_eq_true (lt_of_le_not_le h1 h2)]
      | str t => cases hb
      | null => cases hb
    | str s => cases ha
    | null => cases ha

/-- When both key levels are type-homogeneous, the pandas key order
coincides with strict ascending Python comparison. -/
theorem pairLt_py {lC lD : List Scalar} {k k' : Scalar × Scalar}
    (hhc : levelHomogeneous lC = true) (hhd : levelHomogeneous lD = true)
    (h1 : k.1 ∈ lC) (h1' : k'.1 ∈ lC) (h2 : k.2 ∈ lD) (h2' : k'.2 ∈ lD)
    (hlt : pairLt k k' = true) : pyPairLt k k' = some true := by
  unfold pairLt at hlt
  rw [Bool.and_eq_true, Bool.not_eq_true'] at hlt
  rcases hlt with ⟨hle, hnle⟩
  unfold pairLe at hle hnle
  unfold pyPairLt
  by_cases he : k.1 = k'.1
  · rw [if_pos he] at hle ⊢
    rw [if_pos he.symm] at hnle
    exact scalarLt_py (levelHomogeneous_mem hhd h2 h2') hle hnle
  · rw [if_neg he] at hle ⊢
    rw [if_neg (Ne.symm he)] at hnle
    exact scalarLt_py (levelHomogeneous_mem hhc h1 h1') hle hnle

/-- C10, amended: when Stage 4 aggregates, the rows of the output are
ordered by the grouping key (country, date) in pandas's group-key sort
order — strictly ascending in `pairLt`, i.e. ascending within a type
(numbers numerically, strings lexicographically) with numbers placed
before strings across types (`safe_sort._sort_mixed`) — and never in
first-seen key order.  In particular, whenever both key columns are
type-homogeneous the rows are strictly ascending under Python's own `<`
comparison; for mixed-type key levels no ascending value order exists
(Python `<` is undefined there, see the counterexample) and the
numbers-before-strings order is what the program produces.  The null-free
hypothesis restricts to Stage 4's actual input domain (Stage 3
output). -/
theorem claim_C10_sorted_group_keys (df : DF)
    (_hnn : ∀ r ∈ df.rows, Scalar.null ∉ r)
    (h5 : hasRequired df = true) (hok : aggDefined df = true) :
    ∃ rs, stage4 df = .ok ⟨requiredCols, rs⟩
      ∧ rs.Pairwise (fun r r' =>
          pairLt (entry r 0, entry r 1) (entry r' 0, entry r' 1) = true)
      ∧ (levelHomogeneous (colVals df "country") = true →
          levelHomogeneous (colVals df "date") = true →
          rs.Pairwise (fun r r' =>
            pyPairLt (entry r 0, entry r 1) (entry r' 0, entry r' 1) = some true)) := by
  unfold aggDefined at hok
  obtain ⟨rs, ha⟩ := Option.isSome_iff_exists.mp hok
  have hkeyrow : ∀ k r, mkAggRow df k = some r → (entry r 0, entry r 1) = k := by
    intro k r hk
    obtain ⟨cs, ds, rc, _, _, _, rfl⟩ := mkAggRow_eq_some.mp hk
    show (k.1, k.2) = k
    exact Prod.mk.eta
  refine ⟨rs, stage4_agg_eq h5 ha, ?_, ?_⟩
  · refine pairwise_of_forall₂ (aggRows_eq_some.mp ha) (sortedKeys_strict df) ?_
    intro k r k' r' hk hk' hp
    rw [hkeyrow k r hk, hkeyrow k' r' hk']
    exact hp
  · intro hhc hhd
    have hmem : ∀ k ∈ sortedKeys df,
        k.1 ∈ colVals df "country" ∧ k.2 ∈ colVals df "date" := by
      intro k hk
      have h1 : k ∈ keysOf df :=
        (mem_keepFirsts.mp ((sortLe_perm pairLe (distinctKeys df)).mem_iff.mp hk)).1
      obtain ⟨q, hq, rfl⟩ := List.mem_map.mp h1
      exact ⟨List.mem_map.mpr ⟨q, hq, rfl⟩, List.mem_map.mpr ⟨q, hq, rfl⟩⟩
    have hpw : (sortedKeys df).Pairwise (fun k k' => pyPairLt k k' = some true) := by
      refine (sortedKeys_strict df).imp_of_mem ?_
      intro k k' hk hk' hlt
      obtain ⟨hk1, hk2⟩ := hmem k hk
      obtain ⟨hk1', hk2'⟩ := hmem k' hk'
      exact pairLt_py hhc hhd hk1 hk1' hk2 hk2' hlt
    refine pairwise_of_forall₂ (aggRows_eq_some.mp ha) hpw ?_
    intro k r k' r' hk hk' hp
    rw [hkeyrow k r hk, hkeyrow k' r' hk']
    exact hp

/-! ### Case-mapping and whitespace lemmas for Stage 2 -/

theorem uint32_le_iff {a b : UInt32} : a ≤ b ↔ a.toNat ≤ b.toNat :=
  UInt32.le_def.trans BitVec.le_def

theorem isUpper_iff (c : Char) : c.isUpper = true ↔ 65 ≤ c.toNat ∧ c.toNat ≤ 90 := by
  unfold Char.isUpper
  rw [Bool.and_eq_true, decide_eq_true_eq, decide_eq_true_eq, ge_iff_le,
    uint32_le_iff, uint32_le_iff]
  exact Iff.rfl

theorem isLower_iff (c : Char) : c.isLower = true ↔ 97 ≤ c.toNat ∧ c.toNat ≤ 122 := by
  unfold Char.isLower
  rw [Bool.and_eq_true, decide_eq_true_eq, decide_eq_true_eq, ge_iff_le,
    uint32_le_iff, uint32_le_iff]
  exact Iff.rfl

theorem isAlpha_iff (c : Char) :
    c.isAlpha = true ↔ (65 ≤ c.toNat ∧ c.toNat ≤ 90) ∨ (97 ≤ c.toNat ∧ c.toNat ≤ 122) := by
  unfold Char.isAlpha
  rw [Bool.or_eq_true, isUpper_iff, isLower_iff]

theorem char_eq_iff_toNat {c d : Char} : c = d ↔ c.toNat = d.toNat :=
  ⟨fun h => h ▸ rfl, toNat_inj⟩

theorem pyIsSpace_iff (c : Char) :
    pyIsSpace c = true ↔
      c.toNat = 32 ∨ c.toNat = 9 ∨ c.toNat = 10 ∨ c.toNat = 13 ∨ c.toNat = 11 ∨ c.toNat = 12 := by
  unfold pyIsSpace
  simp only [Bool.or_eq_true, decide_eq_true_eq]
  rw [@char_eq_iff_toNat c ' ', @char_eq_iff_toNat c '\t', @char_eq_iff_toNat c '\n',
    @char_eq_iff_toNat c '\r', @char_eq_iff_toNat c '\x0b', @char_eq_iff_toNat c '\x0c']
  rw [show (' ' : Char).toNat = 32 from rfl, show ('\t' : Char).toNat = 9 from rfl,
    show ('\n' : Char).toNat = 10 from rfl, show ('\r' : Char).toNat = 13 from rfl,
    show ('\x0b' : Char).toNat = 11 from rfl, show ('\x0c' : Char).toNat = 12 from rfl]
  tauto

theorem pyIsSpace_toLower (c : Char) : pyIsSpace c.toLower = pyIsSpace c := by
  by_cases h : 65 ≤ c.toNat ∧ c.toNat ≤ 90
  · have h1 := toLower_toNat_of_upper h
    have hl : pyIsSpace c.toLower = false := by
      rw [← Bool.not_eq_true, pyIsSpace_iff, h1]
      omega
    have hc : pyIsSpace c = false := by
      rw [← Bool.not_eq_true, pyIsSpace_iff]
      omega
    rw [hl, hc]
  · rw [toLower_eq_of_not_upper h]

theorem pyIsSpace_toUpper (c : Char) : pyIsSpace c.toUpper = pyIsSpace c := by
  by_cases h : 97 ≤ c.toNat ∧ c.toNat ≤ 122
  · have h1 := toUpper_toNat_of_lower h
    have hl : pyIsSpace c.toUpper = false := by
      rw [← Bool.not_eq_true, pyIsSpace_iff, h1]
      omega
    have hc : pyIsSpace c = false := by
      rw [← Bool.not_eq_true, pyIsSpace_iff]
      omega
    rw [hl, hc]
  · rw [toUpper_eq_of_not_lower h]

theorem isAlpha_toLower (c : Char) : c.toLower.isAlpha = c.isAlpha := by
  by_cases h : 65 ≤ c.toNat ∧ c.toNat ≤ 90
  · have h1 := toLower_toNat_of_upper h
    have hl : c.toLower.isAlpha = true := (isAlpha_iff _).mpr (Or.inr (by omega))
    have hc : c.isAlpha = true := (isAlpha_iff _).mpr (Or.inl h)
    rw [hl, hc]
  · rw [toLower_eq_of_not_upper h]

theorem isAlpha_toUpper (c : Char) : c.toUpper.isAlpha = c.isAlpha := by
  by_cases h : 97 ≤ c.toNat ∧ c.toNat ≤ 122
  · have h1 := toUpper_toNat_of_lower h
    have hl : c.toUpper.isAlpha = true := (isAlpha_iff _).mpr (Or.inl (by omega))
    have hc : c.isAlpha = true := (isAlpha_iff _).mpr (Or.inr h)
    rw [hl, hc]
  · rw [toUpper_eq_of_not_lower h]

theorem toUpper_toUpper (c : Char) : c.toUpper.toUpper = c.toUpper := by
  by_cases h : 97 ≤ c.toNat ∧ c.toNat ≤ 122
  · apply toUpper_eq_of_not_lower
    rw [toUpper_toNat_of_lower h]
    omega
  · rw [toUpper_eq_of_not_lower h]
    exact toUpper_eq_of_not_lower h

/-! ### `str.title()` lemmas -/

theorem pyTitleAux_idem (p : Bool) (l : List Char) :
    pyTitleAux p (pyTitleAux p l) = pyTitleAux p l := by
  induction l generalizing p with
  | nil => rfl
  | cons c cs ih =>
    by_cases hA : c.isAlpha = true
    · cases p with
      | false => simp [pyTitleAux, hA, isAlpha_toUpper, toUpper_toUpper, ih]
      | true => simp [pyTitleAux, hA, isAlpha_toLower, toLower_toLower, ih]
    · rw [Bool.not_eq_true] at hA
      simp [pyTitleAux, hA, ih]

/-- `str.title()` transforms each character in place, preserving whether
it is whitespace. -/
theorem pyTitleAux_spaceClass (p : Bool) (l : List Char) :
    List.Forall₂ (fun c c' => pyIsSpace c' = pyIsSpace c) l (pyTitleAux p l) := by
  induction l generalizing p with
  | nil => exact List.Forall₂.nil
  | cons c cs ih =>
    refine List.Forall₂.cons ?_ (ih _)
    by_cases hA : c.isAlpha = true
    · rw [if_pos hA]
      cases p with
      | false => exact pyIsSpace_toUpper c
      | true => exact pyIsSpace_toLower c
    · rw [Bool.not_eq_true] at hA
      rw [hA]
      show pyIsSpace c = pyIsSpace c
      rfl

theorem pyTitle_idem (s : String) : pyTitle (pyTitle s) = pyTitle s := by
  unfold pyTitle
  exact congrArg String.mk (pyTitleAux_idem false s.data)

/-! ### `str.strip()` lemmas -/

theorem dropWhile_head_false {α : Type} (p : α → Bool) :
    ∀ {l : List α} {a : α} {as : List α}, l.dropWhile p = a :: as → p a = false := by
  intro l
  induction l with
  | nil => intro a as h; cases h
  | cons b bs ih =>
    intro a as h
    rw [List.dropWhile_cons] at h
    by_cases hb : p b = true
    · rw [if_pos hb] at h
      exact ih h
    · rw [if_neg hb] at h
      cases h
      rwa [Bool.not_eq_true] at hb

theorem pyStripL_head {l : List Char} : ∀ c ∈ (pyStripL l).head?, pyIsSpace c = false := by
  intro c hc
  cases hm : pyStripL l with
  | nil => rw [hm] at hc; cases hc
  | cons a as =>
    rw [hm] at hc
    cases hc
    unfold pyStripL at hm
    have hpre : ((l.dropWhile pyIsSpace).reverse.dropWhile pyIsSpace).reverse
        <+: l.dropWhile pyIsSpace := by
      have h0 : ((l.dropWhile pyIsSpace).reverse.dropWhile pyIsSpace).reverse
          <+: (l.dropWhile pyIsSpace).reverse.reverse :=
        List.reverse_prefix.mpr (List.dropWhile_suffix _)
      rwa [List.reverse_reverse] at h0
    obtain ⟨t, ht⟩ := hpre
    rw [hm] at ht
    exact dropWhile_head_false pyIsSpace ht.symm

theorem pyStripL_last {l : List Char} : ∀ c ∈ (pyStripL l).getLast?, pyIsSpace c = false := by
  intro c hc
  unfold pyStripL at hc
  rw [List.getLast?_reverse] at hc
  cases hv : (l.dropWhile pyIsSpace).reverse.dropWhile pyIsSpace with
  | nil => rw [hv] at hc; cases hc
  | cons b bs =>
    rw [hv, List.head?_cons] at hc
    cases hc
    exact dropWhile_head_false pyIsSpace hv

/-- Transfer of the head?-membership property through the character-wise
relation of `Forall₂`. -/
theorem forall₂_head {α β : Type} {R : α → β → Prop} {l : List α} {t : List β}
    (h : List.Forall₂ R l t) : ∀ b ∈ t.head?, ∃ a ∈ l.head?, R a b := by
  cases h with
  | nil => intro b hb; cases hb
  | cons hr _ =>
    intro b hb
    cases hb
    exact ⟨_, rfl, hr⟩

theorem pyTitle_pyStrip_head (s : String) :
    ∀ c ∈ (pyTitle (pyStrip s)).data.head?, pyIsSpace c = false := by
  intro c hc
  obtain ⟨a, ha, hEq⟩ := forall₂_head (pyTitleAux_spaceClass false (pyStripL s.data)) c hc
  rw [hEq]
  exact pyStripL_head a ha

theorem pyTitle_pyStrip_last (s : String) :
    ∀ c ∈ (pyTitle (pyStrip s)).data.getLast?, pyIsSpace c = false := by
  intro c hc
  have h2 := List.forall₂_reverse_iff.mpr (pyTitleAux_spaceClass false (pyStripL s.data))
  have hc' : c ∈ (pyTitleAux false (pyStripL s.data)).reverse.head? := by
    rw [List.head?_reverse]
    exact hc
  obtain ⟨a, ha, hEq⟩ := forall₂_head h2 c hc'
  rw [List.head?_reverse] at ha
  rw [hEq]
  exact pyStripL_last a ha

/-! ### Index and cell-access lemmas -/

theorem firstIdx_lt_length {α : Type} [DecidableEq α] {x : α} :
    ∀ {l : List α}, x ∈ l → firstIdx x l < l.length := by
  intro l h
  induction l with
  | nil => cases h
  | cons a as ih =>
    unfold firstIdx
    by_cases hax : a = x
    · rw [if_pos hax]
      simp
    · rw [if_neg hax]
      have hx : x ∈ as := (List.mem_cons.mp h).resolve_left fun he => hax he.symm
      rw [List.length_cons]
      exact Nat.succ_lt_succ (ih hx)

theorem colIdx_lt_of_mem {df : DF} {c : String} (h : c ∈ df.cols) :
    colIdx df c < df.cols.length :=
  firstIdx_lt_length h

theorem entry_set_self {r : List Scalar} {i : Nat} (h : i < r.length) (x : Scalar) :
    entry (r.set i x) i = x := by
  unfold entry
  rw [List.getD_eq_getElem?_getD, List.getElem?_set_self h]
  rfl

theorem entry_set_ne {r : List Scalar} {i j : Nat} (h : i ≠ j) (x : Scalar) :
    entry (r.set i x) j = entry r j := by
  unfold entry
  rw [List.getD_eq_getElem?_getD, List.getD_eq_getElem?_getD, List.getElem?_set_ne h]

/-- C3, amended: whenever Stage 2 runs its `.str` pipeline without raising
(a `country` column exists and the `.str` accessor is legal on it), it
succeeds and transforms exactly the `country` column: a string value `v`
becomes `title(strip(v))` under Python semantics — where `str.title()`
starts a new word at every alphabetic character following a
non-alphabetic character (hyphens, digits and apostrophes break words,
not only whitespace) — a null value passes through unchanged, and a
non-null non-string value becomes null (pandas `.str` methods map
non-string elements to `NaN`).  Consequently every resulting country
value is null or a string with no leading or trailing whitespace that is
a fixpoint of `str.title()`. -/
theorem claim_C3_country_cleaning (df : DF) (hwf : WF df)
    (hc : hasCountry df = true)
    (hok : strAccessorOk (colVals df "country") = true) :
    ∃ E, stage2 df = .ok E ∧ stage2Spec df E := by
  have hco : stage2ok df = true := by
    unfold stage2ok
    rw [hok]
    simp
  have hmem : "country" ∈ df.cols := of_decide_eq_true hc
  have hlt : colIdx df "country" < df.cols.length := colIdx_lt_of_mem hmem
  have hE : stage2app df = ⟨df.cols,
      df.rows.map (fun r =>
        r.set (colIdx df "country") (applyStr (entry r (colIdx df "country"))))⟩ := by
    unfold stage2app
    rw [if_pos hc]
  refine ⟨stage2app df, by simp [stage2, hco], ?_, ?_, ?_⟩
  · rw [hE]
  · rw [hE]
    rw [List.forall₂_map_right_iff]
    refine List.forall₂_same.mpr ?_
    intro r hr
    have hlt' : colIdx df "country" < r.length := by
      rw [hwf.2 r hr]
      exact hlt
    refine ⟨fun j hj => entry_set_ne (fun he => hj he.symm) _, ?_, ?_, ?_⟩
    · intro h0
      rw [entry_set_self hlt' _, h0]
      rfl
    · intro n hn
      rw [entry_set_self hlt' _, hn]
      rfl
    · intro s hs
      rw [entry_set_self hlt' _, hs]
      rfl
  · intro v hv
    rw [hE] at hv
    unfold colVals at hv
    rw [List.map_map] at hv
    obtain ⟨r, hr, rfl⟩ := List.mem_map.mp hv
    have hlt' : colIdx df "country" < r.length := by
      rw [hwf.2 r hr]
      exact hlt
    show (entry (r.set (colIdx df "country") (applyStr (entry r (colIdx df "country"))))
          (colIdx df "country") = Scalar.null)
      ∨ ∃ t, entry (r.set (colIdx df "country") (applyStr (entry r (colIdx df "country"))))
          (colIdx df "country") = Scalar.str t
        ∧ (∀ c ∈ t.data.head?, pyIsSpace c = false)
        ∧ (∀ c ∈ t.data.getLast?, pyIsSpace c = false)
        ∧ pyTitle t = t
    rw [entry_set_self hlt' _]
    cases hval : entry r (colIdx df "country") with
    | null => left; rfl
    | num n => left; rfl
    | str s =>
      right
      exact ⟨pyTitle (pyStrip s), rfl, pyTitle_pyStrip_head s, pyTitle_pyStrip_last s,
        pyTitle_idem _⟩

/-! ### Well-formedness preservation and pipeline totality -/

theorem WF_stage1 {df : DF} (hwf : WF df) (hnodup : (df.cols.map normName).Nodup) :
    WF (stage1 df) := by
  refine ⟨hnodup, ?_⟩
  intro r hr
  show r.length = (df.cols.map normName).length
  rw [List.length_map]
  exact hwf.2 r hr

theorem WF_stage2app {df : DF} (hwf : WF df) : WF (stage2app df) := by
  unfold stage2app
  by_cases hc : hasCountry df = true
  · rw [if_pos hc]
    refine ⟨hwf.1, ?_⟩
    intro r hr
    obtain ⟨q, hq, rfl⟩ := List.mem_map.mp hr
    rw [List.length_set]
    exact hwf.2 q hq
  · rw [if_neg hc]
    exact hwf

theorem WF_stage3 {df : DF} (hwf : WF df) : WF (stage3 df) := by
  refine ⟨hwf.1, ?_⟩
  intro r hr
  exact hwf.2 r (((keepFirsts_sublist [] _).trans (List.filter_sublist _)).subset hr)

theorem stage4_total {df : DF} (hwf : WF df)
    (h : hasRequired df = false ∨ aggDefined df = true) :
    ∃ E, stage4 df = .ok E ∧ WF E := by
  rcases h with h | h
  · exact ⟨df, by simp [stage4, h], hwf⟩
  · unfold aggDefined at h
    obtain ⟨rs, ha⟩ := Option.isSome_iff_exists.mp h
    by_cases h5 : hasRequired df = true
    · refine ⟨⟨requiredCols, rs⟩, stage4_agg_eq h5 ha, ?_, ?_⟩
      · show requiredCols.Nodup
        decide
      intro r hr
      obtain ⟨k, _, hk⟩ := forall₂_exists_left (aggRows_eq_some.mp ha) r hr
      obtain ⟨cs, ds, rc, _, _, _, rfl⟩ := mkAggRow_eq_some.mp hk
      rfl
    · rw [Bool.not_eq_true] at h5
      exact ⟨df, by simp [stage4, h5], hwf⟩

/-- C6, amended: the pipeline is total and preserves well-formedness on
every well-formed dataset whose Stage-1-normalized column names stay
unique (the spec's §9 carve-out), provided that (a) Stage 2's `.str`
accessor is legal — the normalized dataset either has no `country` column,
or that column has a string value or only nulls — and (b) Stage 4 either
does not fire (a required column is missing after Stage 3) or every
group's `cases`/`deaths`/`recovered` sum is well-typed.  Outside these
provisos the pipeline is *not* total: Stage 2 raises `AttributeError` on
a purely numeric country column (see the counterexample) and Stage 4
raises `TypeError` on a sum folding a number with a string.  Mixed-type
grouping keys do not make the pipeline fail: pandas sorts them via
`safe_sort._sort_mixed`. -/
theorem claim_C6_pipeline_totality (df : DF) (hwf : WF df)
    (hnodup : (df.cols.map normName).Nodup)
    (h2 : stage2ok (stage1 df) = true)
    (h4 : hasRequired (stage3 (stage2app (stage1 df))) = false
        ∨ aggDefined (stage3 (stage2app (stage1 df))) = true) :
    ∃ E, pipeline df = .ok E ∧ WF E := by
  have hw3 : WF (stage3 (stage2app (stage1 df))) :=
    WF_stage3 (WF_stage2app (WF_stage1 hwf hnodup))
  obtain ⟨E, hE, hwE⟩ := stage4_total hw3 h4
  refine ⟨E, ?_, hwE⟩
  unfold pipeline
  simp [stage2, h2]
  exact hE

/-- C6, counterexample to the claim as stated: the well-formed dataset
with a single, purely numeric `country` column makes Stage 2's
`df['country'].str.strip()` raise `AttributeError` (pandas: "Can only use
.str accessor with string values!"), so the pipeline is not total over
all well-formed datasets — contradicting "every stage produces a
well-formed dataset and no stage raises an error". -/
theorem claim_C6_counterexample :
    WF dfC6bad
    ∧ pipeline dfC6bad
      = .error "AttributeError: Can only use .str accessor with string values!" := by
  constructor
  · decide
  · rfl

/-- Witness for C6 on the spec's §8 concrete scenario (a dataset the
amended claim's provisos accept). -/
theorem claim_C6_pipeline_totality_witness :
    WF dfC6w
    ∧ (dfC6w.cols.map normName).Nodup
    ∧ stage2ok (stage1 dfC6w) = true
    ∧ (hasRequired (stage3 (stage2app (stage1 dfC6w))) = false
        ∨ aggDefined (stage3 (stage2app (stage1 dfC6w))) = true)
    ∧ ∃ E, pipeline dfC6w = .ok E ∧ WF E :=
  ⟨by decide, by decide, by decide, Or.inr (by decide),
    claim_C6_pipeline_totality dfC6w (by decide) (by decide) (by decide)
      (Or.inr (by decide))⟩

/-- C1, counterexample to the claim as stated: a well-formed, null-free,
duplicate-free dataset (a possible Stage 3 output) that contains all five
required columns, on which Stage 4 nevertheless does not "replace the
dataset with an aggregation": the `cases` sum mixes `int` and `str` inside
one group, and pandas raises `TypeError`. -/
theorem claim_C1_counterexample :
    WF dfC1mix
    ∧ (∀ r ∈ dfC1mix.rows, Scalar.null ∉ r)
    ∧ dfC1mix.rows.Nodup
    ∧ hasRequired dfC1mix = true
    ∧ stage4 dfC1mix = .error "TypeError: unsupported operand types in sum" := by
  refine ⟨by decide, by decide, by decide, by decide, ?_⟩
  rfl

/-- Witness for the amended C1 at a concrete two-group dataset. -/
theorem claim_C1_conditional_aggregation_witness :
    (∀ r ∈ dfC1w.rows, Scalar.null ∉ r)
    ∧ ((hasRequired dfC1w = false → stage4 dfC1w = .ok dfC1w)
      ∧ (hasRequired dfC1w = true → aggDefined dfC1w = false →
          ∃ e, stage4 dfC1w = .error e)
      ∧ (hasRequired dfC1w = true → aggDefined dfC1w = true →
          ∃ rs, stage4 dfC1w = .ok ⟨requiredCols, rs⟩ ∧ aggSpec dfC1w rs)) :=
  ⟨by decide, claim_C1_conditional_aggregation dfC1w (by decide)⟩

/-- C3, counterexample to the claim as stated: on the country value
`" guinea-bissau "` the code produces `"Guinea-Bissau"` (Python
`str.title()` capitalizes after the hyphen), whereas the claim's
description — each *whitespace-separated word* capitalized at its first
letter with the rest lowercased — yields `"Guinea-bissau"`.  The two
disagree. -/
theorem claim_C3_counterexample :
    stage2 (DF.mk ["country"] [[Scalar.str " guinea-bissau "]])
      = .ok (DF.mk ["country"] [[Scalar.str "Guinea-Bissau"]])
    ∧ specTitle (pyStrip " guinea-bissau ") = "Guinea-bissau"
    ∧ ("Guinea-Bissau" : String) ≠ "Guinea-bissau" := by
  refine ⟨rfl, ?_, by decide⟩
  decide

/-- Witness for the amended C3 at a concrete country column holding a
string, a null and a number. -/
theorem claim_C3_country_cleaning_witness :
    WF dfC3w
    ∧ hasCountry dfC3w = true
    ∧ strAccessorOk (colVals dfC3w "country") = true
    ∧ ∃ E, stage2 dfC3w = .ok E ∧ stage2Spec dfC3w E :=
  ⟨by decide, by decide, by decide,
    claim_C3_country_cleaning dfC3w (by decide) (by decide) (by decide)⟩

/-- Witness for C9 at a dataset with an extra sixth column. -/
theorem claim_C9_extra_columns_dropped_witness :
    (∀ r ∈ dfC9w.rows, Scalar.null ∉ r)
    ∧ hasRequired dfC9w = true
    ∧ aggDefined dfC9w = true
    ∧ ∃ E, stage4 dfC9w = .ok E
        ∧ E.cols = ["country", "date", "cases", "deaths", "recovered"] :=
  ⟨by decide, by decide, by decide,
    claim_C9_extra_columns_dropped dfC9w (by decide) (by decide) (by decide)⟩

/-- C10, counterexample to the claim as stated: a well-formed null-free
dataset whose `date` key level mixes a string and a number.  Stage 4
aggregates it without error (pandas `safe_sort` falls back to
`_sort_mixed` for mixed-type levels), and the two consecutive output keys
`("A", 5)` and `("A", "b")` are not comparable by Python `<`
(`pyPairLt = none`): the output is in the numbers-before-strings order of
`_sort_mixed`, not in an "ascending sorted order" of key values — no such
order exists across `int` and `str`. -/
theorem claim_C10_counterexample :
    WF dfC10mix
    ∧ (∀ r ∈ dfC10mix.rows, Scalar.null ∉ r)
    ∧ hasRequired dfC10mix = true
    ∧ stage4 dfC10mix = .ok ⟨requiredCols,
        [[.str "A", .num 5, .num 2, .num 2, .num 2],
         [.str "A", .str "b", .num 1, .num 1, .num 1]]⟩
    ∧ pyPairLt (Scalar.str "A", Scalar.num 5) (Scalar.str "A", Scalar.str "b") = none := by
  refine ⟨by decide, by decide, by decide, ?_, rfl⟩
  rfl

/-- Witness for the amended C10 at a dataset whose (type-homogeneous)
keys appear in descending first-seen order. -/
theorem claim_C10_sorted_group_keys_witness :
    (∀ r ∈ dfC10w.rows, Scalar.null ∉ r)
    ∧ hasRequired dfC10w = true
    ∧ aggDefined dfC10w = true
    ∧ ∃ rs, stage4 dfC10w = .ok ⟨requiredCols, rs⟩
        ∧ rs.Pairwise (fun r r' =>
            pairLt (entry r 0, entry r 1) (entry r' 0, entry r' 1) = true)
        ∧ (levelHomogeneous (colVals dfC10w "country") = true →
            levelHomogeneous (colVals dfC10w "date") = true →
            rs.Pairwise (fun r r' =>
              pyPairLt (entry r 0, entry r 1) (entry r' 0, entry r' 1) = some true)) :=
  ⟨by decide, by decide, by decide,
    claim_C10_sorted_group_keys dfC10w (by decide) (by decide) (by decide)⟩

end App
